import Mathlib

/-!
# Verification of the smart-unicom/oss storage abstraction

A shallow embedding of the vendor-neutral object-storage library:
Go strings are modeled as `List Char`, the per-backend clients as
structures carrying their configuration (and abstract vendor-SDK
primitives such as URL signing), and the pure path/endpoint/URL logic
is translated function-by-function from the Go source
(`aliyun/aliyun.go`, `qiniu/qiniu.go`, `tencent/tencent.go`,
`filesystem/filesystem.go`, the huawei and azureblob adapters).
-/

namespace OssSpec

/-! ## Characters and elementary Go string helpers -/

/-- Go regexp `\w`: ASCII word character `[0-9A-Za-z_]`. -/
def isWordChar (c : Char) : Bool := c.isAlphanum || c = '_'

/-- `strings.TrimPrefix(s, "/")`: removes one leading slash when present. -/
def trimLeadSlash (s : List Char) : List Char :=
  match s with
  | c :: t => if c = '/' then t else c :: t
  | [] => []

/-- `strings.TrimRight(s, "/")`: removes every trailing slash. -/
def trimRightSlashes (s : List Char) : List Char :=
  (s.reverse.dropWhile (fun c => c = '/')).reverse

/-- `true` when the string starts with a slash. -/
def leadSlash : List Char → Bool
  | [] => false
  | c :: _ => decide (c = '/')

/-- `true` when the string has no occurrence of two consecutive slashes. -/
def noDoubleSlash : List Char → Bool
  | [] => true
  | c :: rest => !(decide (c = '/') && leadSlash rest) && noDoubleSlash rest

/-! ## The URL regular expression of the adapters

`aliyun`, `qiniu` and `azureblob` all compile
`(https?:)?//((\w+).)+(\w+)/` and call `MatchString`.  The scheme
group is optional, so the pattern finds a match in `s` exactly when
some position of `s` carries `//` immediately followed by a match of
`((\w+).)+(\w+)/`.  The matcher below enumerates, with backtracking,
the possible lengths of each `(\w+)` group; `.` matches any character
other than a newline, as in Go's regexp package. -/

/-- Does the string begin with a match of `(\w+)/` ?  Scanning the
maximal word-character run and demanding a slash right after some word
characters is exhaustive because `/` is itself not a word character. -/
def matchFinalAux : List Char → Bool
  | [] => false
  | c :: rest => if c = '/' then true else if isWordChar c then matchFinalAux rest else false

/-- Does the string begin with a match of `(\w+)/` (at least one word
character, then a slash)? -/
def matchFinal : List Char → Bool
  | [] => false
  | c :: rest => isWordChar c && matchFinalAux rest

/-- Length of the maximal word-character run at the head of the string. -/
def wordRun : List Char → Nat
  | [] => 0
  | c :: rest => if isWordChar c then wordRun rest + 1 else 0

/-- Does the string begin with a match of `((\w+).)+(\w+)/` ?  Each
repetition consumes `i + 1 ≤ wordRun` word characters for `(\w+)` and
one further non-newline character for `.`; the fuel bounds the number
of repetitions and only has to exceed half the string length. -/
def matchAfterF : Nat → List Char → Bool
  | 0, _ => false
  | fuel + 1, cs =>
    (List.range (wordRun cs)).any (fun i =>
      match cs.drop (i + 1) with
      | [] => false
      | c :: rest2 => decide (c ≠ '\n') && (matchFinal rest2 || matchAfterF fuel rest2))

/-- `urlRegexp.MatchString` for `(https?:)?//((\w+).)+(\w+)/`
(the pattern of `aliyun`, `qiniu` and `azureblob`): some position
carries `//` immediately followed by `((\w+).)+(\w+)/`. -/
def hasUrlMatch : List Char → Bool
  | [] => false
  | c :: rest =>
    (decide (c = '/') && (match rest with
      | c2 :: t => decide (c2 = '/') && matchAfterF (t.length + 1) t
      | [] => false))
    || hasUrlMatch rest

/-- Does the string begin with a match of `((\\w+).)+(\w+)/` ?  In the
`tencent` adapter the pattern source is the raw string
`(https?:)?//((\\w+).)+(\w+)/`, so each repetition demands a literal
backslash before the word characters. -/
def matchAfterTF : Nat → List Char → Bool
  | 0, _ => false
  | fuel + 1, cs =>
    match cs with
    | '\\' :: rest =>
      (List.range (wordRun rest)).any (fun i =>
        match rest.drop (i + 1) with
        | [] => false
        | c :: rest2 => decide (c ≠ '\n') && (matchFinal rest2 || matchAfterTF fuel rest2))
    | _ => false

/-- `urlRegexp.MatchString` for the `tencent` adapter's pattern
`(https?:)?//((\\w+).)+(\w+)/`. -/
def hasUrlMatchTencent : List Char → Bool
  | [] => false
  | c :: rest =>
    (decide (c = '/') && (match rest with
      | c2 :: t => decide (c2 = '/') && matchAfterTF (t.length + 1) t
      | [] => false))
    || hasUrlMatchTencent rest

/-! ## A model of `net/url.Parse` followed by `u.Path`

The adapters only consult `u.Path` of the parsed URL.  The model below
follows `net/url.Parse` for inputs without userinfo or ports (the
theorems that rely on it restrict their inputs accordingly): a string
containing an ASCII control character is rejected, an optional
`scheme:` is split off, an authority introduced by `//` extends to the
next `/`, `?` or `#`, the raw path extends from there to the next `?`
or `#`, and `u.Path` is the percent-decoded form of the raw path —
`%2F` becomes `/` — with a parse error on an invalid escape. -/

/-- An ASCII control character, which `net/url.Parse` rejects. -/
def isCTL (c : Char) : Bool := decide (c.toNat < 32) || decide (c.toNat = 127)

/-- Whether the string contains an ASCII control character. -/
def containsCTL (s : List Char) : Bool := s.any isCTL

/-- The value of a hexadecimal digit, when the character is one. -/
def hexVal (c : Char) : Option Nat :=
  if '0' ≤ c ∧ c ≤ '9' then some (c.toNat - 48)
  else if 'a' ≤ c ∧ c ≤ 'f' then some (c.toNat - 87)
  else if 'A' ≤ c ∧ c ≤ 'F' then some (c.toNat - 55)
  else none

/-- Model of `net/url`'s unescape on a path: every `%XX` escape is
decoded to the character with code `XX`; a `%` not followed by two hex
digits is an escape error (`none`). -/
def percentDecode : List Char → Option (List Char)
  | [] => some []
  | c :: rest =>
    if c = '%' then
      match rest with
      | c1 :: c2 :: rest2 =>
        match hexVal c1, hexVal c2 with
        | some h1, some h2 =>
          match percentDecode rest2 with
          | some d => some (Char.ofNat (16 * h1 + h2) :: d)
          | none => none
        | _, _ => none
      | _ => none
    else
      match percentDecode rest with
      | some d => some (c :: d)
      | none => none

/-- A character allowed inside a URL scheme after the first letter. -/
def schemeChar (c : Char) : Bool := c.isAlphanum || c = '+' || c = '-' || c = '.'

/-- Continues scanning a scheme; returns the remainder after the colon. -/
def schemeSplitAux : List Char → Option (List Char)
  | [] => none
  | c :: rest => if c = ':' then some rest else if schemeChar c then schemeSplitAux rest else none

/-- Splits a leading `scheme:` (first character a letter) from the string. -/
def schemeSplit : List Char → Option (List Char)
  | [] => none
  | c :: rest => if c.isAlpha then schemeSplitAux rest else none

/-- The string up to the first `?` or `#`. -/
def takeUntilQH (s : List Char) : List Char :=
  s.takeWhile (fun c => decide (c ≠ '?') && decide (c ≠ '#'))

/-- Drops the authority: everything before the first `/`, `?` or `#`. -/
def afterHost (s : List Char) : List Char :=
  s.dropWhile (fun c => decide (c ≠ '/') && decide (c ≠ '?') && decide (c ≠ '#'))

/-- The path of a string that follows `//`: empty unless a `/` ends
the authority, in which case the raw path runs to the next `?` or `#`
and is then percent-decoded (`none` on an escape error). -/
def authPath (s : List Char) : Option (List Char) :=
  match afterHost s with
  | '/' :: t => (percentDecode (takeUntilQH t)).map (fun d => '/' :: d)
  | _ => some []

/-- `u.Path` of `url.Parse s`, in the modeled fragment; `none` stands
for a parse error (a control character or an invalid percent escape),
on which the adapters fall back to trimming the raw input. -/
def goUrlPath (s : List Char) : Option (List Char) :=
  if containsCTL s then none
  else
    match schemeSplit s with
    | some rest =>
      match rest with
      | '/' :: '/' :: t => authPath t
      | '/' :: t => (percentDecode (takeUntilQH t)).map (fun d => '/' :: d)
      | _ => some []
    | none =>
      match s with
      | '/' :: '/' :: t => authPath t
      | _ => percentDecode (takeUntilQH s)

/-! ## The path normalizers -/

/-- `aliyun` `Client.ToRelativePath`: when the URL pattern matches and
the input parses, take the URL's path; in every case strip one leading
slash. -/
def toRelativePath (urlPath : List Char) : List Char :=
  if hasUrlMatch urlPath then
    match goUrlPath urlPath with
    | some p => trimLeadSlash p
    | none => trimLeadSlash urlPath
  else trimLeadSlash urlPath

/-- `qiniu` `storageKey`: when the URL pattern matches and the input
parses, continue with the URL's path; then strip one leading slash. -/
def storageKey (urlPath : List Char) : List Char :=
  if hasUrlMatch urlPath then
    match goUrlPath urlPath with
    | some p => trimLeadSlash p
    | none => trimLeadSlash urlPath
  else trimLeadSlash urlPath

/-- `tencent` `Client.ToRelativePath`: same shape as aliyun's, but
against the backslash-demanding pattern of its `urlRegexp`. -/
def tencentToRelativePath (urlPath : List Char) : List Char :=
  if hasUrlMatchTencent urlPath then
    match goUrlPath urlPath with
    | some p => trimLeadSlash p
    | none => trimLeadSlash urlPath
  else trimLeadSlash urlPath

/-- `huawei` `Client.ToRelativePath`: only strips one leading slash. -/
def huaweiToRelativePath (urlPath : List Char) : List Char :=
  trimLeadSlash urlPath

/-! ## Objects and shared helpers -/

/-- Decimal digits of a natural number (`fmt.Sprintf("%d", n)`). -/
def natStrAux : Nat → Nat → List Char
  | 0, _ => []
  | fuel + 1, n =>
    if n < 10 then [Char.ofNat (48 + n % 10)]
    else natStrAux fuel (n / 10) ++ [Char.ofNat (48 + n % 10)]

/-- Decimal rendering of a natural number. -/
def natStr (n : Nat) : List Char := natStrAux (n + 1) n

/-- The final path segment, as `filepath.Base` computes it for
slash-separated paths. -/
def baseName (s : List Char) : List Char :=
  if s = [] then ['.']
  else
    let t := trimRightSlashes s
    if t = [] then ['/']
    else (t.reverse.takeWhile (fun c => decide (c ≠ '/'))).reverse

/-- The `oss.Object` fields the studied operations populate (the
back-reference to the producing backend and the optional metadata are
not needed by any claim below). -/
structure OssObject where
  path : List Char
  name : List Char
  deriving DecidableEq, Repr

/-! ## The aliyun client (`aliyun/aliyun.go`) -/

/-- `aliyun.Config`: the fields consulted by the embedded operations.
`acl` models the string-typed `aliyun.ACLType`. -/
structure AliyunConfig where
  bucket : List Char
  endpoint : List Char
  acl : List Char

/-- The aliyun client: its configuration, the endpoint the vendor SDK
reports (`Bucket.Client.Config.Endpoint`), and the SDK signing
primitive `Bucket.SignURL(key, HTTPGet, expirySeconds)` kept abstract. -/
structure AliyunClient where
  config : AliyunConfig
  sdkEndpoint : List Char
  signURL : List Char → Nat → List Char

/-- The `aliyun.ACLPrivate` constant (`"private"`). -/
def aclPrivate : List Char := ("private").data

/-- `strings.TrimPrefix(s, pfx)`. -/
def trimPfx (pfx s : List Char) : List Char :=
  if pfx.isPrefixOf s then s.drop pfx.length else s

/-- The scheme stripping of `aliyun` `Client.GetEndpoint`: trim a
`https://` then a `http://` front. -/
def stripScheme (endpoint : List Char) : List Char :=
  trimPfx (("http://").data) (trimPfx (("https://").data) endpoint)

/-- `aliyun` `Client.GetEndpoint`: a configured endpoint is returned,
but with the bucket prepended when it ends in `aliyuncs.com`; with no
configured endpoint the SDK endpoint is stripped of its scheme and
prefixed by the bucket. -/
def aliyunGetEndpoint (c : AliyunClient) : List Char :=
  if c.config.endpoint ≠ [] then
    if (("aliyuncs.com").data).isSuffixOf c.config.endpoint then
      c.config.bucket ++ '.' :: c.config.endpoint
    else c.config.endpoint
  else c.config.bucket ++ '.' :: stripScheme c.sdkEndpoint

/-- `aliyun` `Client.GetURL`: a private ACL yields the SDK-signed URL
with a `60*60` second expiry; otherwise the argument is returned
unchanged. -/
def aliyunGetURL (c : AliyunClient) (path : List Char) : List Char :=
  if c.config.acl = aclPrivate then c.signURL (toRelativePath path) (60 * 60)
  else path

/-! ## The qiniu client (`qiniu/qiniu.go`) -/

/-- `qiniu.Config`: the fields the embedded operations consult. -/
structure QiniuConfig where
  bucket : List Char
  endpoint : List Char
  privateURL : Bool

/-- The qiniu client: configuration plus the abstract `qbox.Mac`
signing primitive used by the SDK's `MakePrivateURL`. -/
structure QiniuClient where
  config : QiniuConfig
  macSign : List Char → List Char

/-- `qiniu` `Client.GetEndpoint`: the configured endpoint. -/
def qiniuGetEndpoint (c : QiniuClient) : List Char := c.config.endpoint

/-- Model of the SDK's `storage.MakePublicURL`: the domain with
trailing slashes trimmed, a slash, and the key (faithful for domains
and keys that need no URL escaping, which the theorems below ensure). -/
def makePublicURL (domain key : List Char) : List Char :=
  trimRightSlashes domain ++ '/' :: key

/-- Model of the SDK's `storage.MakePrivateURL`: the public URL, an
`e=<deadline>` query parameter, and a `token=` parameter carrying the
Mac signature of the URL signed. -/
def makePrivateURL (sign : List Char → List Char) (domain key : List Char)
    (deadline : Nat) : List Char :=
  let publicURL := makePublicURL domain key
  let urlToSign :=
    if publicURL.any (fun c => c = '?') then
      publicURL ++ (("&e=").data) ++ natStr deadline
    else
      publicURL ++ (("?e=").data) ++ natStr deadline
  urlToSign ++ (("&token=").data) ++ sign urlToSign

/-- `qiniu` `Client.GetURL` at call time `now` (seconds): empty paths
yield an empty URL; a private configuration yields the SDK private URL
whose deadline is `time.Now().Add(time.Second * 3600).Unix()`, that
is `now + 3600`; otherwise the SDK public URL on the endpoint. -/
def qiniuGetURL (c : QiniuClient) (now : Nat) (path : List Char) : List Char :=
  if path = [] then []
  else if c.config.privateURL then
    makePrivateURL c.macSign c.config.endpoint (storageKey path) (now + 3600)
  else makePublicURL (qiniuGetEndpoint c) (storageKey path)

/-- Model of the qiniu SDK `BucketManager.ListFiles`: of the stored
keys carrying the requested key front, in store order, at most `limit`
are returned; the continuation marker the SDK also returns is not
modeled because `Client.List` discards it. -/
def listFilesSDK (store : List (List Char)) (pfx : List Char) (limit : Nat) :
    List (List Char) :=
  (store.filter (fun k => pfx.isPrefixOf k)).take limit

/-- `qiniu` `Client.List`: a single `ListFiles` call with limit `100`,
each entry converted to an object whose path is `"/" + storageKey(key)`. -/
def qiniuList (store : List (List Char)) (path : List Char) : List OssObject :=
  (listFilesSDK store (storageKey path) 100).map
    (fun key => { path := '/' :: storageKey key, name := baseName key })

/-! ## The tencent client (`tencent/tencent.go`) -/

/-- `tencent.Config`. -/
structure TencentConfig where
  appID : List Char
  region : List Char
  bucket : List Char
  acl : List Char
  endpoint : List Char

/-- `tencent` `Client.getUrl`: the full COS URL
`https://<bucket>-<appid>.cos.<region>.myqcloud.com/<relative path>`. -/
def tencentGetUrlFull (c : TencentConfig) (path : List Char) : List Char :=
  ("https://").data ++ c.bucket ++ '-' :: c.appID ++ (".cos.").data ++ c.region
    ++ (".myqcloud.com/").data ++ tencentToRelativePath path

/-- `tencent` `Client.GetURL`: always `getUrl(path)` — the ACL
configuration is never consulted and nothing is signed. -/
def tencentGetURL (c : TencentConfig) (path : List Char) : List Char :=
  tencentGetUrlFull c path

/-- `tencent` `Client.GetEndpoint`: the configured endpoint when set,
else the computed `<bucket>-<appid>.cos.<region>.myqcloud.com`. -/
def tencentGetEndpoint (c : TencentConfig) : List Char :=
  if c.endpoint ≠ [] then c.endpoint
  else c.bucket ++ '-' :: c.appID ++ (".cos.").data ++ c.region ++ (".myqcloud.com").data

/-! ## The azureblob client -/

/-- `azureblob.Config`. -/
structure AzureConfig where
  accessId : List Char
  bucket : List Char
  endpoint : List Char

/-- `azureblob` `Client.GetEndpoint`: the configured endpoint when
set, else `https://<accessId>.blob.core.windows.net`
(`blobFormatString` applied to the account name). -/
def azureblobGetEndpoint (c : AzureConfig) : List Char :=
  if c.endpoint ≠ [] then c.endpoint
  else ("https://").data ++ c.accessId ++ (".blob.core.windows.net").data

/-- Outcome of a `List` call that may panic. -/
inductive ListOutcome where
  | panicked (msg : List Char)
  | returned (objs : List OssObject) (errored : Bool)
  deriving DecidableEq

/-- `azureblob` `Client.List`: the body is `panic("implement me")`,
for every input. -/
def azureblobList (_path : List Char) : ListOutcome :=
  ListOutcome.panicked (("implement me").data)

/-! ## The filesystem client (`filesystem/filesystem.go`) -/

/-- `FileSystem`: the base directory. -/
structure FileSystemClient where
  base : List Char

/-- Model of `filepath.Abs(filepath.Join(base, path))` for an absolute
base and an already-clean relative path (no `.`/`..` segments and no
repeated slashes, which is all the claims below exercise). -/
def filepathJoin (base p : List Char) : List Char := base ++ '/' :: p

/-- `FileSystem.GetFullPath`: the path itself when it already starts
with the base, else the join of base and path. -/
def getFullPath (fs : FileSystemClient) (path : List Char) : List Char :=
  if fs.base.isPrefixOf path then path else filepathJoin fs.base path

/-- Model of `os.Remove` over the set of existing files: removing a
present path deletes it and succeeds; removing an absent path leaves
the set unchanged and reports the not-exist `*PathError`. -/
def osRemove (files : List (List Char)) (p : List Char) :
    List (List Char) × Bool :=
  if p ∈ files then (files.filter (fun q => decide (q ≠ p)), false) else (files, true)

/-- `FileSystem.Delete`: `os.Remove(GetFullPath(path))`; the boolean
is `true` when the call returns a non-nil error. -/
def fsDelete (fs : FileSystemClient) (files : List (List Char)) (path : List Char) :
    List (List Char) × Bool :=
  osRemove files (getFullPath fs path)

/-! ## The temp-file discipline of `Get` (`aliyun/aliyun.go`) -/

/-- The three outcomes the environment decides during an aliyun
`Client.Get` call: whether `GetStream` (the vendor `GetObject`)
succeeds, whether `ioutil.TempFile` succeeds, and whether the
`io.Copy` into the temp file completes. -/
structure GetEnv where
  streamOk : Bool
  tempFileOk : Bool
  copyOk : Bool

/-- What an aliyun `Client.Get` call leaves behind. -/
structure GetResult where
  errored : Bool
  tempCreated : Bool
  tempRemoved : Bool

/-- `aliyun` `Client.Get`: a failed `GetStream` returns before any
temp file exists; after `ioutil.TempFile` succeeds the stream is
copied and the file returned together with the copy error — the
function contains no `os.Remove`, so the temp file is never removed. -/
def aliyunGet (env : GetEnv) : GetResult :=
  if env.streamOk = false then { errored := true, tempCreated := false, tempRemoved := false }
  else if env.tempFileOk = false then { errored := true, tempCreated := false, tempRemoved := false }
  else { errored := !env.copyOk, tempCreated := true, tempRemoved := false }

/-! ## Miscellaneous definitions used by the claims -/

/-- Dotted concatenation of host labels:
`interDot [a, b, c] = a ++ "." ++ b ++ "." ++ c`. -/
def interDot : List (List Char) → List Char
  | [] => []
  | [l] => l
  | l :: ls => l ++ '.' :: interDot ls

/-- A key character for which the three-shape equivalence of claim C2
can hold: no control character (`url.Parse` would error), no `?` or
`#` (they would end the URL's path early) and no `%` (the URL shape
percent-decodes while the bare shapes do not). -/
def plainKeyChar (c : Char) : Bool :=
  !isCTL c && decide (c ≠ '?') && decide (c ≠ '#') && decide (c ≠ '%')

/-- Following the spec's words: a URL "embeds an expiry timestamp" at
most `window` seconds after `now` when an `e=<t>` expiry parameter
with `t ≤ now + window` occurs inside it — the form the qiniu private
URL carries. -/
def embedsExpiryParamWithin (url : List Char) (now window : Nat) : Prop :=
  ∃ t : Nat, t ≤ now + window ∧ List.IsInfix ('e' :: '=' :: natStr t) url

/-- A store of 101 distinct keys `k0 … k100`, all sharing the key
front `"k"` — one more than the page size qiniu's `List` requests. -/
def qiniuStore101 : List (List Char) :=
  (List.range 101).map (fun i => 'k' :: natStr i)

/-! ## The qiniu `Get`/`GetStream` control flow (`qiniu/qiniu.go`) -/

/-- What `http.Get` produces: a transport error (nil response) or a
response with a status code (whose body is non-nil). -/
inductive HttpGetResult where
  | transportErr
  | response (status : Nat)
  deriving DecidableEq

/-- Outcome of a Go call that may panic instead of returning. -/
inductive StreamOutcome where
  | panicked
  | returned (bodyPresent : Bool) (errored : Bool)
  deriving DecidableEq

/-- `qiniu` `Client.GetStream`: `res, err := http.Get(purl)` followed
by `return res.Body, err`.  On a transport error `res` is nil, so the
`res.Body` selector dereferences a nil pointer — the call panics.  On
a response, the body is returned, with an error iff the status is not
200 (`"file %s not found"`). -/
def qiniuGetStream (http : HttpGetResult) : StreamOutcome :=
  match http with
  | HttpGetResult.transportErr => StreamOutcome.panicked
  | HttpGetResult.response st => StreamOutcome.returned true (decide (st ≠ 200))

/-- Outcome of a qiniu `Client.Get` call. -/
inductive GetOutcome where
  | panicked
  | returned (errored : Bool)
  deriving DecidableEq

/-- `qiniu` `Client.Get`: the error of `GetStream` is overwritten by
the `if file, err = ioutil.TempFile(...)` assignment, so when the
stream carried a not-found error the body (the error page) is copied
into the temp file and the call reports success; a panic in
`GetStream` propagates. -/
def qiniuGet (http : HttpGetResult) (tempFileOk copyOk : Bool) : GetOutcome :=
  match qiniuGetStream http with
  | StreamOutcome.panicked => GetOutcome.panicked
  | StreamOutcome.returned _ _ =>
    if tempFileOk = false then GetOutcome.returned true
    else GetOutcome.returned (!copyOk)

/-! ## Lemmas about double slashes and the matchers -/

theorem noDoubleSlash_tail {c : Char} {rest : List Char}
    (h : noDoubleSlash (c :: rest) = true) : noDoubleSlash rest = true := by
  simp only [noDoubleSlash, Bool.and_eq_true] at h
  exact h.2

theorem noDoubleSlash_cons_slash {c : Char} {rest : List Char}
    (h : noDoubleSlash (c :: rest) = true) (hc : c = '/') :
    leadSlash rest = false := by
  subst hc
  simp only [noDoubleSlash, Bool.and_eq_true, Bool.not_eq_true', Bool.and_eq_false_iff] at h
  rcases h.1 with h1 | h1
  · simp at h1
  · cases rest with
    | nil => rfl
    | cons c2 t => simpa [leadSlash] using h1

theorem hasUrlMatch_eq_false_of_noDoubleSlash {s : List Char}
    (h : noDoubleSlash s = true) : hasUrlMatch s = false := by
  induction s with
  | nil => rfl
  | cons c rest ih =>
    have htail := noDoubleSlash_tail h
    simp only [hasUrlMatch, Bool.or_eq_false_iff, Bool.and_eq_false_iff]
    refine ⟨?_, ih htail⟩
    by_cases hc : c = '/'
    · right
      have hlead := noDoubleSlash_cons_slash h hc
      cases rest with
      | nil => simp
      | cons c2 t =>
        simp only [leadSlash] at hlead
        simp [hlead]
    · left; simp [hc]

theorem hasUrlMatchTencent_eq_false_of_noDoubleSlash {s : List Char}
    (h : noDoubleSlash s = true) : hasUrlMatchTencent s = false := by
  induction s with
  | nil => rfl
  | cons c rest ih =>
    have htail := noDoubleSlash_tail h
    simp only [hasUrlMatchTencent, Bool.or_eq_false_iff, Bool.and_eq_false_iff]
    refine ⟨?_, ih htail⟩
    by_cases hc : c = '/'
    · right
      have hlead := noDoubleSlash_cons_slash h hc
      cases rest with
      | nil => simp
      | cons c2 t =>
        simp only [leadSlash] at hlead
        simp [hlead]
    · left; simp [hc]

/-! ## Lemmas about `trimLeadSlash` and the normalizers -/

theorem trimLeadSlash_cons_slash (t : List Char) : trimLeadSlash ('/' :: t) = t := by
  simp [trimLeadSlash]

theorem trimLeadSlash_of_not_lead {s : List Char} (h : leadSlash s = false) :
    trimLeadSlash s = s := by
  cases s with
  | nil => rfl
  | cons c t =>
    simp only [leadSlash, decide_eq_false_iff_not] at h
    simp [trimLeadSlash, h]

theorem noDoubleSlash_trimLeadSlash {s : List Char} (h : noDoubleSlash s = true) :
    noDoubleSlash (trimLeadSlash s) = true := by
  cases s with
  | nil => exact h
  | cons c t =>
    simp only [trimLeadSlash]
    by_cases hc : c = '/'
    · simp only [hc, if_pos rfl]
      exact noDoubleSlash_tail h
    · simp only [if_neg hc]
      exact h

theorem leadSlash_trimLeadSlash {s : List Char} (h : noDoubleSlash s = true) :
    leadSlash (trimLeadSlash s) = false ∨ trimLeadSlash s = s := by
  cases s with
  | nil => exact Or.inl rfl
  | cons c t =>
    by_cases hc : c = '/'
    · subst hc
      rw [trimLeadSlash_cons_slash]
      exact Or.inl (noDoubleSlash_cons_slash h rfl)
    · right
      apply trimLeadSlash_of_not_lead
      simp [leadSlash, hc]

theorem toRelativePath_of_noDoubleSlash {s : List Char} (h : noDoubleSlash s = true) :
    toRelativePath s = trimLeadSlash s := by
  simp [toRelativePath, hasUrlMatch_eq_false_of_noDoubleSlash h]

theorem tencentToRelativePath_of_noDoubleSlash {s : List Char}
    (h : noDoubleSlash s = true) :
    tencentToRelativePath s = trimLeadSlash s := by
  simp [tencentToRelativePath, hasUrlMatchTencent_eq_false_of_noDoubleSlash h]

theorem trimLeadSlash_idem_of_noDoubleSlash {s : List Char}
    (h : noDoubleSlash s = true) :
    trimLeadSlash (trimLeadSlash s) = trimLeadSlash s := by
  rcases leadSlash_trimLeadSlash h with h1 | h1
  · exact trimLeadSlash_of_not_lead h1
  · rw [h1]; exact h1

/-! ## Claim C1: idempotence of the path normalizer -/

/-- Claim C1 is false as stated: the aliyun normalizer is not
idempotent on every input.  At the concrete input `"//foo"` the URL
pattern does not match (no `(\w+)/` follows the slashes), so only one
leading slash is stripped: `ToRelativePath("//foo") = "/foo"`, while a
second application yields `"foo"`. -/
theorem c1_counterexample :
    toRelativePath (toRelativePath (("//foo").data)) ≠
      toRelativePath (("//foo").data) := by decide

/-- Claim C1, amended: every normalizer of the repository — aliyun's
`ToRelativePath`, qiniu's `storageKey`, tencent's `ToRelativePath`
and huawei's `ToRelativePath` — is idempotent on every input that
contains no two consecutive slashes (which covers bare keys and
single-leading-slash keys); inputs with consecutive slashes, such as
`"//foo"`, can lose one more slash per application. -/
theorem c1_theorem (p : List Char) (h : noDoubleSlash p = true) :
    toRelativePath (toRelativePath p) = toRelativePath p
    ∧ storageKey (storageKey p) = storageKey p
    ∧ tencentToRelativePath (tencentToRelativePath p) = tencentToRelativePath p
    ∧ huaweiToRelativePath (huaweiToRelativePath p) = huaweiToRelativePath p := by
  have hsk : ∀ q : List Char, storageKey q = toRelativePath q := fun _ => rfl
  have htrim := trimLeadSlash_idem_of_noDoubleSlash h
  have hnds := noDoubleSlash_trimLeadSlash h
  have hali : toRelativePath (toRelativePath p) = toRelativePath p := by
    rw [toRelativePath_of_noDoubleSlash h, toRelativePath_of_noDoubleSlash hnds, htrim]
  refine ⟨hali, ?_, ?_, ?_⟩
  · rw [hsk, hsk]; exact hali
  · rw [tencentToRelativePath_of_noDoubleSlash h,
      tencentToRelativePath_of_noDoubleSlash hnds, htrim]
  · simpa [huaweiToRelativePath] using htrim

/-- Witness for the amended claim C1 at the concrete input `"/a/b.txt"`. -/
theorem c1_witness :
    toRelativePath (toRelativePath (("/a/b.txt").data)) =
      toRelativePath (("/a/b.txt").data) :=
  (c1_theorem (("/a/b.txt").data) (by decide)).1

/-! ## Completeness of the URL matcher on well-formed endpoint URLs -/

theorem isWordChar_ne {c : Char} (h : isWordChar c = true) :
    c ≠ '/' ∧ c ≠ '?' ∧ c ≠ '#' ∧ c ≠ '\n' := by
  refine ⟨?_, ?_, ?_, ?_⟩ <;> · intro heq; subst heq; exact absurd h (by decide)

theorem matchFinalAux_complete {l : List Char} (rest : List Char)
    (h : ∀ c ∈ l, isWordChar c = true) :
    matchFinalAux (l ++ '/' :: rest) = true := by
  induction l with
  | nil => simp [matchFinalAux]
  | cons c l' ih =>
    have hc := h c (by simp)
    have hne := (isWordChar_ne hc).1
    simp only [List.cons_append, matchFinalAux, if_neg hne, if_pos hc]
    exact ih (fun d hd => h d (by simp [hd]))

theorem matchFinal_complete {l : List Char} (rest : List Char) (hne : l ≠ [])
    (h : ∀ c ∈ l, isWordChar c = true) :
    matchFinal (l ++ '/' :: rest) = true := by
  cases l with
  | nil => exact absurd rfl hne
  | cons c l' =>
    simp only [List.cons_append, matchFinal, Bool.and_eq_true]
    exact ⟨h c (by simp), matchFinalAux_complete rest (fun d hd => h d (by simp [hd]))⟩

theorem wordRun_append_ge {l : List Char} (x : List Char)
    (h : ∀ c ∈ l, isWordChar c = true) : l.length ≤ wordRun (l ++ x) := by
  induction l with
  | nil => simp
  | cons c l' ih =>
    have hc := h c (by simp)
    simp only [List.cons_append, wordRun, if_pos hc, List.length_cons, List.append_eq]
    have := ih (fun d hd => h d (by simp [hd]))
    omega

theorem matchAfterF_mono : ∀ f g : Nat, f ≤ g → ∀ cs : List Char,
    matchAfterF f cs = true → matchAfterF g cs = true := by
  intro f
  induction f with
  | zero => intro g _ cs h; exact absurd h (by simp [matchAfterF])
  | succ f' ih =>
    intro g hfg cs h
    cases g with
    | zero => omega
    | succ g' =>
      simp only [matchAfterF, List.any_eq_true] at h ⊢
      obtain ⟨i, hir, hcond⟩ := h
      refine ⟨i, hir, ?_⟩
      cases hdrop : cs.drop (i + 1) with
      | nil => rw [hdrop] at hcond; exact absurd hcond (by simp)
      | cons c r2 =>
        rw [hdrop] at hcond
        simp only [Bool.and_eq_true, Bool.or_eq_true] at hcond ⊢
        refine ⟨hcond.1, ?_⟩
        rcases hcond.2 with h2 | h2
        · exact Or.inl h2
        · exact Or.inr (ih g' (by omega) r2 h2)

theorem interDot_cons_cons (l m : List Char) (ls : List (List Char)) :
    interDot (l :: m :: ls) = l ++ '.' :: interDot (m :: ls) := rfl

theorem matchAfterF_complete : ∀ (ls : List (List Char)) (l rest : List Char),
    l ≠ [] → (∀ c ∈ l, isWordChar c = true) → ls ≠ [] →
    (∀ m ∈ ls, m ≠ [] ∧ ∀ c ∈ m, isWordChar c = true) →
    matchAfterF (ls.length + 1) (interDot (l :: ls) ++ '/' :: rest) = true := by
  intro ls
  induction ls with
  | nil => intro l rest _ _ hne _; exact absurd rfl hne
  | cons m ls' ih =>
    intro l rest hl hlw _ hlsw
    have hble : (l.length - 1) + 1 = l.length := by
      have : l.length ≠ 0 := by simpa using hl
      omega
    rw [interDot_cons_cons, List.append_assoc, List.cons_append]
    simp only [matchAfterF, List.any_eq_true]
    refine ⟨l.length - 1, ?_, ?_⟩
    · rw [List.mem_range]
      have hge := wordRun_append_ge ('.' :: (interDot (m :: ls') ++ '/' :: rest)) hlw
      omega
    · rw [hble, List.drop_left]
      simp only [Bool.and_eq_true, Bool.or_eq_true]
      refine ⟨by decide, ?_⟩
      cases ls' with
      | nil =>
        left
        have hm := hlsw m (by simp)
        exact matchFinal_complete rest hm.1 hm.2
      | cons m2 ls'' =>
        right
        exact ih m rest (hlsw m (by simp)).1 (hlsw m (by simp)).2 (by simp)
          (fun x hx => hlsw x (by simp [hx]))

theorem interDot_length_ge : ∀ (ls : List (List Char)) (l : List Char),
    ls.length ≤ (interDot (l :: ls)).length := by
  intro ls
  induction ls with
  | nil => simp
  | cons m ls' ih =>
    intro l
    rw [interDot_cons_cons]
    have := ih m
    simp only [List.length_append, List.length_cons]
    omega

theorem hasUrlMatch_cons_of {rest : List Char} (c : Char)
    (h : hasUrlMatch rest = true) : hasUrlMatch (c :: rest) = true := by
  simp [hasUrlMatch, h]

theorem hasUrlMatch_dslash {t : List Char}
    (h : matchAfterF (t.length + 1) t = true) :
    hasUrlMatch ('/' :: '/' :: t) = true := by
  simp [hasUrlMatch, h]

theorem hasUrlMatch_https {t : List Char}
    (h : matchAfterF (t.length + 1) t = true) :
    hasUrlMatch ((("https://").data) ++ t) = true := by
  show hasUrlMatch ('h' :: 't' :: 't' :: 'p' :: 's' :: ':' :: '/' :: '/' :: t) = true
  apply hasUrlMatch_cons_of
  apply hasUrlMatch_cons_of
  apply hasUrlMatch_cons_of
  apply hasUrlMatch_cons_of
  apply hasUrlMatch_cons_of
  apply hasUrlMatch_cons_of
  exact hasUrlMatch_dslash h

/-! ## Computation of `goUrlPath` on well-formed endpoint URLs -/

theorem dropWhile_append_of_all {P : Char → Bool} {e : List Char} (x : List Char)
    (h : ∀ c ∈ e, P c = true) :
    List.dropWhile P (e ++ x) = List.dropWhile P x := by
  induction e with
  | nil => rfl
  | cons c e' ih =>
    simp only [List.cons_append, List.dropWhile, h c (by simp)]
    exact ih (fun d hd => h d (by simp [hd]))

theorem takeWhile_of_all {Q : Char → Bool} {k : List Char}
    (h : ∀ c ∈ k, Q c = true) : List.takeWhile Q k = k := by
  induction k with
  | nil => rfl
  | cons c k' ih =>
    simp only [List.takeWhile, h c (by simp)]
    rw [ih (fun d hd => h d (by simp [hd]))]

theorem interDot_mem : ∀ (ls : List (List Char)) (l : List Char) (c : Char),
    c ∈ interDot (l :: ls) → c ∈ l ∨ c = '.' ∨ ∃ m ∈ ls, c ∈ m := by
  intro ls
  induction ls with
  | nil => intro l c hc; exact Or.inl hc
  | cons m ls' ih =>
    intro l c hc
    rw [interDot_cons_cons] at hc
    rcases List.mem_append.mp hc with hc | hc
    · exact Or.inl hc
    · rcases List.mem_cons.mp hc with hc | hc
      · exact Or.inr (Or.inl hc)
      · rcases ih m c hc with hc | hc | ⟨m', hm', hc⟩
        · exact Or.inr (Or.inr ⟨m, by simp, hc⟩)
        · exact Or.inr (Or.inl hc)
        · exact Or.inr (Or.inr ⟨m', by simp [hm'], hc⟩)

theorem isWordChar_not_ctl {c : Char} (h : isWordChar c = true) : isCTL c = false := by
  simp only [isWordChar, Char.isAlphanum, Char.isAlpha, Char.isDigit, Char.isUpper,
    Char.isLower, Bool.or_eq_true, Bool.and_eq_true, decide_eq_true_eq] at h
  simp only [isCTL, Bool.or_eq_false_iff, decide_eq_false_iff_not, Char.toNat]
  rcases h with ((h | h) | h) | h
  · obtain ⟨h1, h2⟩ := h
    have h1n : (65 : UInt32).toNat ≤ c.val.toNat := h1
    have h2n : c.val.toNat ≤ (90 : UInt32).toNat := h2
    have e1 : (65 : UInt32).toNat = 65 := rfl
    have e2 : (90 : UInt32).toNat = 90 := rfl
    omega
  · obtain ⟨h1, h2⟩ := h
    have h1n : (97 : UInt32).toNat ≤ c.val.toNat := h1
    have h2n : c.val.toNat ≤ (122 : UInt32).toNat := h2
    have e1 : (97 : UInt32).toNat = 97 := rfl
    have e2 : (122 : UInt32).toNat = 122 := rfl
    omega
  · obtain ⟨h1, h2⟩ := h
    have h1n : (48 : UInt32).toNat ≤ c.val.toNat := h1
    have h2n : c.val.toNat ≤ (57 : UInt32).toNat := h2
    have e1 : (48 : UInt32).toNat = 48 := rfl
    have e2 : (57 : UInt32).toNat = 57 := rfl
    omega
  · subst h; exact ⟨by decide, by decide⟩

theorem percentDecode_of_noPct {k : List Char} (h : ∀ c ∈ k, c ≠ '%') :
    percentDecode k = some k := by
  induction k with
  | nil => rfl
  | cons c rest ih =>
    have hc := h c (by simp)
    rw [percentDecode.eq_def]
    simp only [if_neg hc, ih (fun d hd => h d (by simp [hd]))]

theorem authPath_eq {e k : List Char}
    (he : ∀ c ∈ e, c ≠ '/' ∧ c ≠ '?' ∧ c ≠ '#')
    (hk : ∀ c ∈ k, c ≠ '?' ∧ c ≠ '#') (hknp : ∀ c ∈ k, c ≠ '%') :
    authPath (e ++ '/' :: k) = some ('/' :: k) := by
  have h1 : afterHost (e ++ '/' :: k) = '/' :: k := by
    unfold afterHost
    rw [dropWhile_append_of_all ('/' :: k)
      (fun c hc => by simp [(he c hc).1, (he c hc).2.1, (he c hc).2.2])]
    simp [List.dropWhile]
  unfold authPath
  rw [h1]
  have h2 : takeUntilQH k = k :=
    takeWhile_of_all (fun c hc => by simp [(hk c hc).1, (hk c hc).2])
  show (percentDecode (takeUntilQH k)).map (fun d => '/' :: d) = some ('/' :: k)
  rw [h2, percentDecode_of_noPct hknp]
  rfl

theorem goUrlPath_https {t : List Char} (h : containsCTL t = false) :
    goUrlPath ((("https://").data) ++ t) = authPath t := by
  have hc : containsCTL ('h' :: 't' :: 't' :: 'p' :: 's' :: ':' :: '/' :: '/' :: t) = false := by
    unfold containsCTL at h ⊢
    simp only [List.any_cons, h, Bool.or_false]
    decide
  unfold goUrlPath
  rw [if_neg (by simp [hc])]
  rfl

/-! ## Claim C2: the three input shapes normalize alike -/

/-- Claim C2 is false as stated: `url.Parse` percent-decodes the path,
so a key containing a percent escape normalizes differently through
the URL shape than through the bare shapes.  At the key `a%2Fb.txt`
on the endpoint `bucket.example.com`, the fully qualified URL
normalizes to the decoded `a/b.txt` while both bare shapes keep
`a%2Fb.txt`. -/
theorem c2_counterexample :
    toRelativePath (("https://bucket.example.com/a%2Fb.txt").data) = ("a/b.txt").data
    ∧ toRelativePath (("a%2Fb.txt").data) = ("a%2Fb.txt").data
    ∧ toRelativePath ('/' :: ("a%2Fb.txt").data) = ("a%2Fb.txt").data
    ∧ ("a/b.txt").data ≠ ("a%2Fb.txt").data := by decide

/-- Claim C2, amended, for the aliyun backend (the cited source): for
an endpoint written as at least two dot-separated word-character
labels `interDot (l :: ls)` and a canonical key `k` (no leading slash,
no consecutive slashes, and only plain characters — no control, query,
fragment or percent-escape characters), the bare key, the
leading-slash key and the fully qualified `https://<endpoint>/<key>`
all normalize to the same canonical relative key `k`; keys carrying
percent escapes are excluded, because the URL shape decodes them. -/
theorem c2_theorem (l : List Char) (ls : List (List Char)) (k : List Char)
    (hl : l ≠ []) (hlw : ∀ c ∈ l, isWordChar c = true)
    (hls : ls ≠ []) (hlsw : ∀ m ∈ ls, m ≠ [] ∧ ∀ c ∈ m, isWordChar c = true)
    (hkds : noDoubleSlash k = true) (hkl : leadSlash k = false)
    (hkp : ∀ c ∈ k, plainKeyChar c = true) :
    toRelativePath ('/' :: k) = k
    ∧ toRelativePath k = k
    ∧ toRelativePath ((("https://").data) ++ (interDot (l :: ls) ++ '/' :: k)) = k := by
  have hkq : ∀ c ∈ k, c ≠ '?' ∧ c ≠ '#' := by
    intro c hc
    have h := hkp c hc
    simp only [plainKeyChar, Bool.and_eq_true, Bool.not_eq_true', decide_eq_true_eq] at h
    exact ⟨h.1.1.2, h.1.2⟩
  have hknp : ∀ c ∈ k, c ≠ '%' := by
    intro c hc
    have h := hkp c hc
    simp only [plainKeyChar, Bool.and_eq_true, Bool.not_eq_true', decide_eq_true_eq] at h
    exact h.2
  have hkctl : ∀ c ∈ k, isCTL c = false := by
    intro c hc
    have h := hkp c hc
    simp only [plainKeyChar, Bool.and_eq_true, Bool.not_eq_true', decide_eq_true_eq] at h
    exact h.1.1.1
  have hnds2 : noDoubleSlash ('/' :: k) = true := by
    simp [noDoubleSlash, hkl, hkds]
  have h1 : toRelativePath ('/' :: k) = k := by
    rw [toRelativePath_of_noDoubleSlash hnds2, trimLeadSlash_cons_slash]
  have h2 : toRelativePath k = k := by
    rw [toRelativePath_of_noDoubleSlash hkds, trimLeadSlash_of_not_lead hkl]
  refine ⟨h1, h2, ?_⟩
  have hmA : matchAfterF (ls.length + 1) (interDot (l :: ls) ++ '/' :: k) = true :=
    matchAfterF_complete ls l k hl hlw hls hlsw
  have hlen : ls.length + 1 ≤ (interDot (l :: ls) ++ '/' :: k).length + 1 := by
    have := interDot_length_ge ls l
    simp only [List.length_append, List.length_cons]
    omega
  have hmatch : hasUrlMatch ((("https://").data) ++ (interDot (l :: ls) ++ '/' :: k)) = true :=
    hasUrlMatch_https (matchAfterF_mono _ _ hlen _ hmA)
  have he : ∀ c ∈ interDot (l :: ls), c ≠ '/' ∧ c ≠ '?' ∧ c ≠ '#' := by
    intro c hc
    rcases interDot_mem ls l c hc with hc | hc | ⟨m, hm, hc⟩
    · have h3 := isWordChar_ne (hlw c hc)
      exact ⟨h3.1, h3.2.1, h3.2.2.1⟩
    · subst hc
      exact ⟨by decide, by decide, by decide⟩
    · have h3 := isWordChar_ne ((hlsw m hm).2 c hc)
      exact ⟨h3.1, h3.2.1, h3.2.2.1⟩
  have hctl : containsCTL (interDot (l :: ls) ++ '/' :: k) = false := by
    rw [Bool.eq_false_iff]
    intro hct
    unfold containsCTL at hct
    obtain ⟨c, hcmem, hcp⟩ := List.any_eq_true.mp hct
    rcases List.mem_append.mp hcmem with hm | hm
    · rcases interDot_mem ls l c hm with hm2 | hm2 | ⟨m, hmm, hm2⟩
      · rw [isWordChar_not_ctl (hlw c hm2)] at hcp
        exact absurd hcp (by simp)
      · subst hm2
        exact absurd hcp (by decide)
      · rw [isWordChar_not_ctl ((hlsw m hmm).2 c hm2)] at hcp
        exact absurd hcp (by simp)
    · rcases List.mem_cons.mp hm with hm2 | hm2
      · subst hm2
        exact absurd hcp (by decide)
      · rw [hkctl c hm2] at hcp
        exact absurd hcp (by simp)
  have hgo : goUrlPath ((("https://").data) ++ (interDot (l :: ls) ++ '/' :: k)) =
      some ('/' :: k) := by
    rw [goUrlPath_https hctl, authPath_eq he hkq hknp]
  unfold toRelativePath
  rw [if_pos hmatch, hgo]
  exact trimLeadSlash_cons_slash k

/-- Witness for the amended claim C2: the endpoint `bucket.example.com`
and the key `a/b.txt`. -/
theorem c2_witness :
    toRelativePath ((("https://").data) ++
        (interDot [("bucket").data, ("example").data, ("com").data] ++
          '/' :: ("a/b.txt").data)) = ("a/b.txt").data :=
  (c2_theorem (("bucket").data) [("example").data, ("com").data] (("a/b.txt").data)
    (by decide) (by decide) (by decide) (by decide) (by decide) (by decide)
    (by decide)).2.2

/-! ## Claim C3: `GetURL` under a public configuration -/

/-- Claim C3 is false as stated: for the aliyun backend configured
with a public ACL, `GetURL("/a.txt")` returns the argument `"/a.txt"`
unchanged, which differs from the normalized path `"a.txt"`. -/
theorem c3_counterexample :
    aliyunGetURL
        { config := { bucket := ("b").data, endpoint := [],
                      acl := ("public-read").data },
          sdkEndpoint := [], signURL := fun k _ => k }
        (("/a.txt").data) = ("/a.txt").data
    ∧ toRelativePath (("/a.txt").data) = ("a.txt").data
    ∧ (("/a.txt").data) ≠ (("a.txt").data) :=
  ⟨by decide, by decide, by decide⟩

/-- Claim C3, amended: for the aliyun backend with a non-private ACL,
`GetURL` returns its argument unchanged; consequently it equals the
normalized path exactly on inputs that are already canonical (no
leading slash, no consecutive slashes). -/
theorem c3_theorem (c : AliyunClient) (p : List Char)
    (hpub : c.config.acl ≠ aclPrivate) :
    aliyunGetURL c p = p
    ∧ (noDoubleSlash p = true → leadSlash p = false →
        aliyunGetURL c p = toRelativePath p) := by
  have h1 : aliyunGetURL c p = p := by simp [aliyunGetURL, hpub]
  refine ⟨h1, fun hnds hls => ?_⟩
  rw [h1, toRelativePath_of_noDoubleSlash hnds, trimLeadSlash_of_not_lead hls]

/-- Witness for the amended claim C3: a public aliyun client at the
already-canonical input `"a.txt"`. -/
theorem c3_witness :
    aliyunGetURL
        { config := { bucket := ("b").data, endpoint := [],
                      acl := ("public-read").data },
          sdkEndpoint := [], signURL := fun k _ => k }
        (("a.txt").data) = toRelativePath (("a.txt").data) :=
  (c3_theorem
    { config := { bucket := ("b").data, endpoint := [],
                  acl := ("public-read").data },
      sdkEndpoint := [], signURL := fun k _ => k }
    (("a.txt").data) (by decide)).2 (by decide) (by decide)

/-! ## Claim C5: endpoint resolution order -/

/-- Claim C5 is false as stated: the aliyun backend does not return a
configured endpoint verbatim when it ends in `aliyuncs.com` — the
bucket name is prepended, so the operator override does not win. -/
theorem c5_counterexample :
    aliyunGetEndpoint
        { config := { bucket := ("mybucket").data,
                      endpoint := ("example.aliyuncs.com").data, acl := [] },
          sdkEndpoint := [], signURL := fun k _ => k } =
      ("mybucket.example.aliyuncs.com").data
    ∧ ("mybucket.example.aliyuncs.com").data ≠ ("example.aliyuncs.com").data :=
  ⟨by decide, by decide⟩

/-- Claim C5, amended: tencent and azureblob return a configured
endpoint verbatim and fall back to a computed default; qiniu always
returns the configured endpoint; aliyun returns a configured endpoint
verbatim only when it does not end in `aliyuncs.com` — otherwise the
bucket is prepended — and with no configured endpoint prepends the
bucket to the scheme-stripped SDK endpoint. -/
theorem c5_theorem (a : AliyunClient) (t : TencentConfig) (z : AzureConfig)
    (q : QiniuClient) :
    (a.config.endpoint ≠ [] →
      (("aliyuncs.com").data).isSuffixOf a.config.endpoint = false →
      aliyunGetEndpoint a = a.config.endpoint)
    ∧ (a.config.endpoint ≠ [] →
      (("aliyuncs.com").data).isSuffixOf a.config.endpoint = true →
      aliyunGetEndpoint a = a.config.bucket ++ '.' :: a.config.endpoint)
    ∧ (a.config.endpoint = [] →
      aliyunGetEndpoint a = a.config.bucket ++ '.' :: stripScheme a.sdkEndpoint)
    ∧ (t.endpoint ≠ [] → tencentGetEndpoint t = t.endpoint)
    ∧ (t.endpoint = [] → tencentGetEndpoint t =
        t.bucket ++ '-' :: t.appID ++ (".cos.").data ++ t.region ++ (".myqcloud.com").data)
    ∧ (z.endpoint ≠ [] → azureblobGetEndpoint z = z.endpoint)
    ∧ (z.endpoint = [] → azureblobGetEndpoint z =
        ("https://").data ++ z.accessId ++ (".blob.core.windows.net").data)
    ∧ qiniuGetEndpoint q = q.config.endpoint := by
  refine ⟨?_, ?_, ?_, ?_, ?_, ?_, ?_, rfl⟩
  · intro h1 h2; simp [aliyunGetEndpoint, h1, h2]
  · intro h1 h2; simp [aliyunGetEndpoint, h1, h2]
  · intro h1; simp [aliyunGetEndpoint, h1]
  · intro h1; simp [tencentGetEndpoint, h1]
  · intro h1; simp [tencentGetEndpoint, h1]
  · intro h1; simp [azureblobGetEndpoint, h1]
  · intro h1; simp [azureblobGetEndpoint, h1]

/-- Witness for the amended claim C5, discharging the hypotheses on
concrete clients: an aliyun client with a non-`aliyuncs.com` override,
an aliyun client with no override, a tencent configuration with and
without an override, and an azure configuration with no override. -/
theorem c5_witness :
    aliyunGetEndpoint
        { config := { bucket := ("b").data, endpoint := ("cdn.example.org").data,
                      acl := [] },
          sdkEndpoint := [], signURL := fun k _ => k } = ("cdn.example.org").data
    ∧ aliyunGetEndpoint
        { config := { bucket := ("b").data, endpoint := [], acl := [] },
          sdkEndpoint := ("https://oss-x.example.com").data,
          signURL := fun k _ => k } =
        ("b").data ++ '.' :: stripScheme (("https://oss-x.example.com").data)
    ∧ tencentGetEndpoint
        { appID := ("app").data, region := ("r").data, bucket := ("b").data,
          acl := [], endpoint := ("ep.example.org").data } = ("ep.example.org").data
    ∧ tencentGetEndpoint
        { appID := ("app").data, region := ("r").data, bucket := ("b").data,
          acl := [], endpoint := [] } =
        ("b").data ++ '-' :: ("app").data ++ (".cos.").data ++ ("r").data
          ++ (".myqcloud.com").data
    ∧ azureblobGetEndpoint
        { accessId := ("acct").data, bucket := ("b").data, endpoint := [] } =
        ("https://").data ++ ("acct").data ++ (".blob.core.windows.net").data := by
  refine ⟨?_, ?_, ?_, ?_, ?_⟩
  · exact (c5_theorem
      { config := { bucket := ("b").data, endpoint := ("cdn.example.org").data,
                    acl := [] },
        sdkEndpoint := [], signURL := fun k _ => k }
      { appID := [], region := [], bucket := [], acl := [], endpoint := [] }
      { accessId := [], bucket := [], endpoint := [] }
      { config := { bucket := [], endpoint := [], privateURL := false },
        macSign := fun s => s }).1 (by decide) (by decide)
  · exact (c5_theorem
      { config := { bucket := ("b").data, endpoint := [], acl := [] },
        sdkEndpoint := ("https://oss-x.example.com").data, signURL := fun k _ => k }
      { appID := [], region := [], bucket := [], acl := [], endpoint := [] }
      { accessId := [], bucket := [], endpoint := [] }
      { config := { bucket := [], endpoint := [], privateURL := false },
        macSign := fun s => s }).2.2.1 (by decide)
  · exact (c5_theorem
      { config := { bucket := [], endpoint := [], acl := [] },
        sdkEndpoint := [], signURL := fun k _ => k }
      { appID := ("app").data, region := ("r").data, bucket := ("b").data,
        acl := [], endpoint := ("ep.example.org").data }
      { accessId := [], bucket := [], endpoint := [] }
      { config := { bucket := [], endpoint := [], privateURL := false },
        macSign := fun s => s }).2.2.2.1 (by decide)
  · exact (c5_theorem
      { config := { bucket := [], endpoint := [], acl := [] },
        sdkEndpoint := [], signURL := fun k _ => k }
      { appID := ("app").data, region := ("r").data, bucket := ("b").data,
        acl := [], endpoint := [] }
      { accessId := [], bucket := [], endpoint := [] }
      { config := { bucket := [], endpoint := [], privateURL := false },
        macSign := fun s => s }).2.2.2.2.1 (by decide)
  · exact (c5_theorem
      { config := { bucket := [], endpoint := [], acl := [] },
        sdkEndpoint := [], signURL := fun k _ => k }
      { appID := [], region := [], bucket := [], acl := [], endpoint := [] }
      { accessId := ("acct").data, bucket := ("b").data, endpoint := [] }
      { config := { bucket := [], endpoint := [], privateURL := false },
        macSign := fun s => s }).2.2.2.2.2.2.1 (by decide)

/-! ## Claim C4: `GetURL` under a private configuration -/

/-- Claim C4 is false as stated: the tencent backend configured with
`ACL = "private"` returns the plain unsigned COS URL.  The returned
URL is a constant of the configuration — it takes no call time and no
secret — and embeds no `e=<timestamp>` expiry parameter at all (it
does not even contain the character `=`). -/
theorem c4_counterexample :
    tencentGetURL
        { appID := ("app").data, region := ("r").data, bucket := ("b").data,
          acl := ("private").data, endpoint := [] } (("a.txt").data) =
      ("https://b-app.cos.r.myqcloud.com/a.txt").data
    ∧ ¬ embedsExpiryParamWithin
        (tencentGetURL
          { appID := ("app").data, region := ("r").data, bucket := ("b").data,
            acl := ("private").data, endpoint := [] } (("a.txt").data)) 0 3600 := by
  have hurl : tencentGetURL
      { appID := ("app").data, region := ("r").data, bucket := ("b").data,
        acl := ("private").data, endpoint := [] } (("a.txt").data) =
      ("https://b-app.cos.r.myqcloud.com/a.txt").data := by decide
  refine ⟨hurl, ?_⟩
  rintro ⟨t, _, hinf⟩
  have hmem : '=' ∈ ('e' :: '=' :: natStr t) := by simp
  have hsub := hinf.subset hmem
  rw [hurl] at hsub
  exact absurd hsub (by decide)

/-- Claim C4, amended: of the backends offering a private mode, qiniu
and aliyun behave as claimed (huawei always signs with the same
3600-second window through its SDK), while tencent ignores its ACL.
For a private qiniu client whose public URL carries no query part,
`GetURL` embeds the expiry parameter `e=<now+3600>` — within the
one-hour window — and differs from the bare relative key; for a
private aliyun client, `GetURL` is the SDK-signed URL with a
`60*60`-second expiry. -/
theorem c4_theorem (c : QiniuClient) (a : AliyunClient) (now : Nat) (path q : List Char)
    (hp : path ≠ []) (hpriv : c.config.privateURL = true)
    (hnoq : (makePublicURL c.config.endpoint (storageKey path)).any
        (fun ch => ch = '?') = false)
    (hacl : a.config.acl = aclPrivate) :
    embedsExpiryParamWithin (qiniuGetURL c now path) now 3600
    ∧ qiniuGetURL c now path ≠ storageKey path
    ∧ aliyunGetURL a q = a.signURL (toRelativePath q) (60 * 60) := by
  have hurl : qiniuGetURL c now path =
      (makePublicURL c.config.endpoint (storageKey path) ++ (("?e=").data)
          ++ natStr (now + 3600))
        ++ (("&token=").data)
        ++ c.macSign (makePublicURL c.config.endpoint (storageKey path)
            ++ (("?e=").data) ++ natStr (now + 3600)) := by
    simp [qiniuGetURL, hp, hpriv, makePrivateURL, hnoq, List.append_assoc]
  refine ⟨?_, ?_, by simp [aliyunGetURL, hacl]⟩
  · refine ⟨now + 3600, le_refl _, ?_⟩
    rw [hurl]
    refine ⟨makePublicURL c.config.endpoint (storageKey path) ++ ['?'],
      (("&token=").data) ++ c.macSign (makePublicURL c.config.endpoint (storageKey path)
        ++ (("?e=").data) ++ natStr (now + 3600)), ?_⟩
    simp [List.append_assoc]
  · rw [hurl]
    intro heq
    have hlen := congrArg List.length heq
    simp only [List.length_append, makePublicURL, List.length_cons] at hlen
    omega

/-- Witness for the amended claim C4: a private qiniu client on the
endpoint `https://cdn.example.com` at call time `0` with key `a.txt`,
and a private aliyun client. -/
theorem c4_witness :
    embedsExpiryParamWithin
      (qiniuGetURL
        { config := { bucket := ("b").data,
                      endpoint := ("https://cdn.example.com").data,
                      privateURL := true },
          macSign := fun _ => ("sig").data } 0 (("a.txt").data)) 0 3600
    ∧ qiniuGetURL
        { config := { bucket := ("b").data,
                      endpoint := ("https://cdn.example.com").data,
                      privateURL := true },
          macSign := fun _ => ("sig").data } 0 (("a.txt").data) ≠
        storageKey (("a.txt").data) := by
  have h := c4_theorem
    { config := { bucket := ("b").data,
                  endpoint := ("https://cdn.example.com").data,
                  privateURL := true },
      macSign := fun _ => ("sig").data }
    { config := { bucket := ("b").data, endpoint := [],
                  acl := ("private").data },
      sdkEndpoint := [], signURL := fun k _ => k }
    0 (("a.txt").data) [] (by decide) (by decide) (by decide) (by decide)
  exact ⟨h.1, h.2.1⟩

/-! ## Claim C6: listing drains all pages -/

/-- Claim C6 is false as stated: with 101 stored keys under the
requested key front, qiniu's `List` — a single `ListFiles` call with
limit 100 whose continuation marker is discarded — omits the 101st
key `k100` from its result. -/
theorem c6_counterexample :
    ('k' :: natStr 100) ∈ qiniuStore101
    ∧ (("k").data).isPrefixOf ('k' :: natStr 100) = true
    ∧ ¬ ∃ o ∈ qiniuList qiniuStore101 (("k").data),
        o.path = '/' :: storageKey ('k' :: natStr 100) := by decide

/-- Claim C6, amended: qiniu's `List` returns exactly the first
`min(100, number of matching keys)` objects — one vendor page of at
most 100 entries, never drained further — and every returned object
does come from a stored key with the normalized key front. -/
theorem c6_theorem (store : List (List Char)) (path : List Char) :
    (qiniuList store path).length =
      min (store.filter (fun k => (storageKey path).isPrefixOf k)).length 100
    ∧ ∀ o ∈ qiniuList store path, ∃ k ∈ store,
        (storageKey path).isPrefixOf k = true ∧ o.path = '/' :: storageKey k := by
  constructor
  · simp [qiniuList, listFilesSDK, List.length_take, Nat.min_comm]
  · intro o ho
    simp only [qiniuList, listFilesSDK, List.mem_map] at ho
    obtain ⟨k, hk, rfl⟩ := ho
    have hk2 := List.mem_of_mem_take hk
    have hk3 := List.mem_filter.mp hk2
    exact ⟨k, hk3.1, hk3.2, rfl⟩

/-- Witness for the amended claim C6: the singleton store `["ka"]`
listed under `"k"` yields the object for `ka`. -/
theorem c6_witness :
    ∃ k ∈ [("ka").data], (storageKey (("k").data)).isPrefixOf k = true ∧
      ({ path := '/' :: ("ka").data, name := ("ka").data } : OssObject).path =
        '/' :: storageKey k :=
  (c6_theorem [("ka").data] (("k").data)).2
    { path := '/' :: ("ka").data, name := ("ka").data } (by decide)

/-! ## Claim C7: idempotence of `Delete` -/

/-- Claim C7 is false as stated: the filesystem backend's `Delete`
forwards `os.Remove`, so deleting a key that does not exist reports an
error, and of two consecutive deletes of an existing key the second
one errors. -/
theorem c7_counterexample :
    (fsDelete { base := ("/tmp").data } [] (("a.txt").data)).2 = true
    ∧ (fsDelete { base := ("/tmp").data } [("/tmp/a.txt").data] (("a.txt").data)).2 = false
    ∧ (fsDelete { base := ("/tmp").data }
        (fsDelete { base := ("/tmp").data } [("/tmp/a.txt").data] (("a.txt").data)).1
        (("a.txt").data)).2 = true := by decide

/-- Claim C7, amended: the filesystem backend's `Delete` is not
idempotent — after any first `Delete(k)` the full path is absent, so
an immediately repeated `Delete(k)` always returns the `os.Remove`
not-exist error (the cloud backends merely forward their vendor
delete call, whose missing-key semantics the core does not control). -/
theorem c7_theorem (fs : FileSystemClient) (files : List (List Char))
    (path : List Char) :
    (fsDelete fs (fsDelete fs files path).1 path).2 = true := by
  unfold fsDelete osRemove
  by_cases h : getFullPath fs path ∈ files
  · simp only [if_pos h]
    have h2 : getFullPath fs path ∉
        files.filter (fun q => decide (q ≠ getFullPath fs path)) := by
      simp [List.mem_filter]
    simp [h2]
  · simp [h]

/-! ## Claim C8: temp-file cleanup on a failed `Get` -/

/-- Claim C8 is false as stated: when the copy into the temporary file
fails, aliyun's `Get` reports the error but the already-created
temporary file is never removed — the function contains no cleanup. -/
theorem c8_counterexample :
    (aliyunGet { streamOk := true, tempFileOk := true, copyOk := false }).errored = true
    ∧ (aliyunGet { streamOk := true, tempFileOk := true, copyOk := false }).tempCreated = true
    ∧ (aliyunGet { streamOk := true, tempFileOk := true, copyOk := false }).tempRemoved = false := by
  decide

/-- Claim C8, amended: a `Get` that fails in `GetStream` or in
`TempFile` leaves no temporary file only because none has been
created yet; but a `Get` whose copy fails errors with the temporary
file created and never removed — cleanup on failure does not exist. -/
theorem c8_theorem (env : GetEnv) :
    ((env.streamOk = false ∨ env.tempFileOk = false) →
      (aliyunGet env).tempCreated = false)
    ∧ (env.streamOk = true → env.tempFileOk = true → env.copyOk = false →
      (aliyunGet env).errored = true ∧ (aliyunGet env).tempCreated = true
        ∧ (aliyunGet env).tempRemoved = false) := by
  constructor
  · rintro (h | h)
    · simp [aliyunGet, h]
    · by_cases hs : env.streamOk = false
      · simp [aliyunGet, hs]
      · simp [aliyunGet, hs, h]
  · intro h1 h2 h3
    simp [aliyunGet, h1, h2, h3]

/-- Witness for the amended claim C8 at the two concrete environments
(failed stream; failed copy). -/
theorem c8_witness :
    (aliyunGet { streamOk := false, tempFileOk := true, copyOk := true }).tempCreated = false
    ∧ ((aliyunGet { streamOk := true, tempFileOk := true, copyOk := false }).errored = true
      ∧ (aliyunGet { streamOk := true, tempFileOk := true, copyOk := false }).tempCreated = true
      ∧ (aliyunGet { streamOk := true, tempFileOk := true, copyOk := false }).tempRemoved = false) :=
  ⟨(c8_theorem { streamOk := false, tempFileOk := true, copyOk := true }).1 (Or.inl rfl),
    (c8_theorem { streamOk := true, tempFileOk := true, copyOk := false }).2 rfl rfl rfl⟩

/-! ## Claim C9: `Get` on an absent key fails cleanly -/

/-- Claim C9 is right and the code is wrong: qiniu's `GetStream` runs
`res, err := http.Get(purl); …; return res.Body, err`, so on a
transport error `res` is nil and the `res.Body` selector panics
instead of returning the error; and on an HTTP 404 the not-found
error is overwritten inside `Get` by the `TempFile` assignment, so
`Get` returns success with the error page as content. -/
theorem c9_theorem :
    qiniuGetStream HttpGetResult.transportErr = StreamOutcome.panicked
    ∧ qiniuGet (HttpGetResult.response 404) true true = GetOutcome.returned false :=
  ⟨rfl, by decide⟩

/-! ## Claim C10: the azureblob `List` panics -/

/-- Claim C10, confirmed: the azureblob `List` body is
`panic("implement me")`, so every call panics with that message
instead of producing objects or an error. -/
theorem c10_theorem (path : List Char) :
    azureblobList path = ListOutcome.panicked (("implement me").data) := rfl

end OssSpec
